import Mathlib

/-!
Verification of `image_flasher.py`: a shallow embedding of the flashing
protocol driver (prompt negotiation, chunked transfer loop, sparse-zero
optimization, progress accounting, cleanup) together with theorems about
the properties claimed for it.

Conventions of the embedding:
* console text (the serial byte stream, prompt strings) is `List Char`,
  one element per character handed back by `conn.read(1)`/`chr`;
* file data (image bytes, chunk contents) is `List Nat`;
* the serial transport is an input list: reading one unit yields the head,
  and an exhausted list models `conn.read` returning no data (timeout);
* side effects (commands sent, chunk files written, artifact removal,
  closing the transport, progress prints) are recorded as an `Event` trace;
* a Python exception is `Except.error`; the trace produced up to the point
  of the raise is kept so that post-failure behaviour can be stated.
-/

instance {ε α : Type} [DecidableEq ε] [DecidableEq α] :
    DecidableEq (Except ε α) := fun
  | .error a, .error b =>
    if h : a = b then .isTrue (by rw [h])
    else .isFalse (by intro hh; cases hh; exact h rfl)
  | .error _, .ok _ => .isFalse (by intro h; cases h)
  | .ok _, .error _ => .isFalse (by intro h; cases h)
  | .ok a, .ok b =>
    if h : a = b then .isTrue (by rw [h])
    else .isFalse (by intro hh; cases hh; exact h rfl)

/-- Characters of Python's `string.printable`: ASCII 0x20–0x7e plus
`\t`, `\n`, `\v`, `\f`, `\r` (codes 9–13). -/
def isPrintable (c : Char) : Bool :=
  (32 ≤ c.toNat && c.toNat ≤ 126) || (9 ≤ c.toNat && c.toNat ≤ 13)

/-- The echo condition of `conn_wait_for`/`conn_wait_for_any` (lines
227/241): a received character is printed iff it is printable or is the
backspace character `\b` (code 8). -/
def isEchoed (c : Char) : Bool :=
  isPrintable c || c.toNat == 8

/-- Python `h.startswith(n)`: is `n` a prefix of `h`. -/
def strStartsWith : List Char → List Char → Bool
  | [], _ => true
  | _ :: _, [] => false
  | a :: n, b :: h => a == b && strStartsWith n h

/-- Python `n in h` for strings: is `n` a contiguous substring of `h`. -/
def strIn (needle : List Char) : List Char → Bool
  | [] => needle.isEmpty
  | c :: t => strStartsWith needle (c :: t) || strIn needle t

/-- The exceptions the driver can raise: `TimeoutError` from the prompt
waits (its message carries the expected string, or the list of candidate
strings for `conn_wait_for_any`), and `FileNotFoundError` from
`os.remove`. -/
inductive FlashErr where
  | promptTimeout (expected : List (List Char))
  | fileNotFound
deriving DecidableEq

/-- The state of a prompt-wait loop when it returns: the accumulated
receive buffer `rcv_str`, the characters echoed to the operator, and the
not-yet-consumed remainder of the input stream. -/
structure WaitState where
  rcv : List Char
  echoed : List Char
  rest : List Char
deriving DecidableEq

/-- The loop of `conn_wait_for` (lines 220–229) with its state explicit:
while `expect` is not a substring of `rcv_str`, read one character; an
empty read raises `TimeoutError` naming `expect`; every received character
is appended to `rcv_str`, and echoed iff printable-or-backspace. -/
def conn_wait_for_loop (expect : List Char) :
    List Char → List Char → List Char → Except FlashErr WaitState
  | stream, rcv_str, echoed =>
    if strIn expect rcv_str then .ok ⟨rcv_str, echoed, stream⟩
    else
      match stream with
      | [] => .error (.promptTimeout [expect])
      | c :: rest =>
        conn_wait_for_loop expect rest (rcv_str ++ [c])
          (echoed ++ if isEchoed c then [c] else [])

/-- Function `conn_wait_for` (lines 220–229): the Python function returns
`None`; its internal state is discarded. -/
def conn_wait_for (expect : List Char) (stream : List Char) :
    Except FlashErr Unit :=
  (conn_wait_for_loop expect stream [] []).map fun _ => ()

/-- The loop of `conn_wait_for_any` (lines 232–243) with its state
explicit: while every candidate is absent from `rcv_str`
(`all([x not in rcv_str for x in expect])`), read one character; an empty
read raises `TimeoutError` naming the candidate list. -/
def conn_wait_for_any_loop (expect : List (List Char)) :
    List Char → List Char → List Char → Except FlashErr WaitState
  | stream, rcv_str, echoed =>
    if expect.all (fun x => ! strIn x rcv_str) then
      match stream with
      | [] => .error (.promptTimeout expect)
      | c :: rest =>
        conn_wait_for_any_loop expect rest (rcv_str ++ [c])
          (echoed ++ if isEchoed c then [c] else [])
    else .ok ⟨rcv_str, echoed, stream⟩

/-- Function `conn_wait_for_any` (lines 232–243): the Python function
returns `None`; which candidate matched is not part of the result. -/
def conn_wait_for_any (expect : List (List Char)) (stream : List Char) :
    Except FlashErr Unit :=
  (conn_wait_for_any_loop expect stream [] []).map fun _ => ()

/-- Line 94: `uboot_propmt = "=>"` (the source's own spelling). -/
def uboot_propmt : List Char := "=>".toList

/-- The autoboot banner literal of line 101. -/
def hit_any_key : List Char := "Hit any key to stop autoboot:".toList

/-- Line 109: `base_addr = 0x0`. -/
def base_addr : Nat := 0x0

/-- Line 110: `mmc_device = 1`. -/
def mmc_device : Nat := 1

/-- Line 111: `mmc_part = 0`. -/
def mmc_part : Nat := 0

/-- Line 112: `mmc_block_size = 512`. -/
def mmc_block_size : Nat := 512

/-- Line 115: `chunk_filename = "chunk.bin"`. -/
def chunk_filename : List Char := "chunk.bin".toList

/-- Line 116: `chunk_size_in_bytes = 20*1024*1024`. -/
def chunk_size_in_bytes : Nat := 20 * 1024 * 1024

/-- The staging memory address `0x48000000` hard-coded in the `mw.b`,
`tftp` and `mmc write` commands (lines 167, 175, 178). -/
def load_addr : Nat := 0x48000000

/-- The block-count computation of lines 156–158 with the block size as a
parameter: `L // B`, plus one if `L % B` is nonzero. -/
def block_count (L B : Nat) : Nat :=
  L / B + if L % B ≠ 0 then 1 else 0

/-- Lines 156–158: `chunk_size_in_blocks` for a chunk of `len` bytes,
with the source's fixed `mmc_block_size`. -/
def chunk_size_in_blocks (len : Nat) : Nat :=
  block_count len mmc_block_size

/-- Lines 160–164: the sparse check. The flag starts `True` and is set to
`False` whenever a byte `data[i] != 0` is seen (the loop never exits
early). -/
def buffer_is_00_only (data : List Nat) : Bool :=
  data.foldl (fun acc b => if b ≠ 0 then false else acc) true

/-- Python `f.read(n)` on a byte stream: the first `n` bytes and the remainder.
Fuel-free structural recursion on the stream so that concrete runs reduce
in the kernel. -/
def readChunk : Nat → List Nat → List Nat × List Nat
  | _, [] => ([], [])
  | n, x :: xs =>
    match n with
    | 0 => ([], x :: xs)
    | m + 1 =>
      let p := readChunk m xs
      (x :: p.1, p.2)

/-- The bootloader commands sent over serial (each terminated by `\r` in
the source), abstracted by constructor with their numeric/text payloads:
`\r` alone, `env set serverip …`, `env set ipaddr …`,
`mmc dev <dev> <part>`, `mw.b <addr> <fill> <lenHex>`,
`tftp <addr> <filename>`, `mmc write <addr> <startHex> <countHex>`. -/
inductive Cmd where
  | cr
  | envSetServerip (ip : List Char)
  | envSetIpaddr (ip : List Char)
  | mmcDev (dev part : Nat)
  | mwFill (addr fill len : Nat)
  | tftpFetch (addr : Nat) (filename : List Char)
  | mmcWrite (addr blockStart blockCount : Nat)
deriving DecidableEq

/-- A progress print (lines 184–187): with a nonzero `image_size` the
line shows `bytes_sent/image_size (pct%)`, otherwise only `bytes_sent`. -/
inductive Report where
  | percent (bytes_sent total pct : Nat)
  | raw (bytes_sent : Nat)
deriving DecidableEq

/-- Observable actions of the driver: a command sent to the bootloader,
the chunk file written into the TFTP root (lines 171–173), the
`os.remove` of the staging artifact (line 194), `conn.close()` (line
199), and a progress print. -/
inductive Event where
  | send (c : Cmd)
  | stageChunk (data : List Nat)
  | removeArtifact
  | closeConn
  | progress (r : Report)
deriving DecidableEq

/-- Is this event the staging of a chunk file? -/
def isStageEvent : Event → Bool
  | .stageChunk _ => true
  | _ => false

/-- Is this event the removal of the staging artifact? -/
def isRemoveEvent : Event → Bool
  | .removeArtifact => true
  | _ => false

/-- Is this event the closing of the serial transport? -/
def isCloseEvent : Event → Bool
  | .closeConn => true
  | _ => false

/-- Is this event the sending of an `mmc write` command? -/
def isMmcWriteSend : Event → Bool
  | .send (.mmcWrite _ _ _) => true
  | _ => false

/-- Lines 166–176: the actions taken for one chunk before the storage
write — a single `mw.b` fill for an all-zero chunk, otherwise writing the
chunk file and sending the `tftp` fetch command. -/
def chunkEvents (data : List Nat) : List Event :=
  if buffer_is_00_only data then
    [.send (.mwFill load_addr 0 data.length)]
  else
    [.stageChunk data, .send (.tftpFetch load_addr chunk_filename)]

/-- The transfer loop of lines 147–189, with the loop state
(`bytes_sent`, `block_start`, the unread image remainder, the unread
serial stream) explicit, and an extra structural-recursion counter that
is set to the remainder's length by `flashLoop` (each iteration consumes
at least one byte, so the counter never reaches zero before the
remainder does). Returns the event trace and, on normal exit, the final
`bytes_sent`, `block_start` and serial remainder. -/
def flashLoopAux : Nat → Nat → Nat → Nat → List Nat → List Char →
    List Event × Except FlashErr (Nat × Nat × List Char)
  | 0, _, bytes_sent, block_start, _, stream =>
    ([], .ok (bytes_sent, block_start, stream))
  | fuel + 1, image_size, bytes_sent, block_start, remaining, stream =>
    let rc := readChunk chunk_size_in_bytes remaining
    if rc.1.isEmpty then ([], .ok (bytes_sent, block_start, stream))
    else
      let blocks := chunk_size_in_blocks rc.1.length
      let evs1 := chunkEvents rc.1
      match conn_wait_for_loop uboot_propmt stream [] [] with
      | .error e => (evs1, .error e)
      | .ok w1 =>
        let evs2 := evs1 ++ [.send (.mmcWrite load_addr block_start blocks)]
        match conn_wait_for_loop uboot_propmt w1.rest [] [] with
        | .error e => (evs2, .error e)
        | .ok w2 =>
          let k := flashLoopAux fuel image_size (bytes_sent + rc.1.length)
            (block_start + blocks) rc.2 w2.rest
          let pr := Event.progress (if image_size ≠ 0 then
              .percent (bytes_sent + rc.1.length) image_size
                ((bytes_sent + rc.1.length) * 100 / image_size)
            else .raw (bytes_sent + rc.1.length))
          (evs2 ++ [pr] ++ k.1, k.2)

/-- The transfer loop of lines 147–189 started on a full image. -/
def flashLoop (image_size bytes_sent block_start : Nat)
    (remaining : List Nat) (stream : List Char) :
    List Event × Except FlashErr (Nat × Nat × List Char) :=
  flashLoopAux remaining.length image_size bytes_sent block_start remaining stream

/-- The configuration record consumed by `do_flash_image`: the image path
and the optional `--serverip`/`--ipaddr` strings (`None` by default). -/
structure Args where
  image : List Char
  serverip : Option (List Char)
  ipaddr : Option (List Char)

/-- Line 120: `str(args.image).endswith(".xz")`. -/
def use_lzma (a : Args) : Bool :=
  ".xz".toList.isSuffixOf a.image

/-- Lines 140–141: send `mmc dev <device> <partition>` and wait for the
prompt; on success hand back the unread serial remainder. -/
def mmcDevStep (s : List Char) :
    List Event × Except FlashErr (List Char) :=
  match conn_wait_for_loop uboot_propmt s [] [] with
  | .error e => ([.send (.mmcDev mmc_device mmc_part)], .error e)
  | .ok w => ([.send (.mmcDev mmc_device mmc_part)], .ok w.rest)

/-- Lines 135–137: `if args.ipaddr:` — when the option is present and
nonempty (Python truthiness), send `env set ipaddr …` and wait; then the
`mmc dev` step. -/
def ipaddrStep (a : Args) (s : List Char) :
    List Event × Except FlashErr (List Char) :=
  match a.ipaddr with
  | none => mmcDevStep s
  | some ip =>
    if ip.isEmpty then mmcDevStep s
    else
      match conn_wait_for_loop uboot_propmt s [] [] with
      | .error e => ([.send (.envSetIpaddr ip)], .error e)
      | .ok w =>
        let k := mmcDevStep w.rest
        ([.send (.envSetIpaddr ip)] ++ k.1, k.2)

/-- Lines 131–133: `if args.serverip:` — when the option is present and
nonempty, send `env set serverip …` and wait; then the ipaddr step. -/
def serveripStep (a : Args) (s : List Char) :
    List Event × Except FlashErr (List Char) :=
  match a.serverip with
  | none => ipaddrStep a s
  | some ip =>
    if ip.isEmpty then ipaddrStep a s
    else
      match conn_wait_for_loop uboot_propmt s [] [] with
      | .error e => ([.send (.envSetServerip ip)], .error e)
      | .ok w =>
        let k := ipaddrStep a w.rest
        ([.send (.envSetServerip ip)] ++ k.1, k.2)

/-- Lines 100–104 and 131–141: prompt negotiation followed by environment
configuration. A `\r` is sent and `conn_wait_for_any` awaits either the
prompt or the autoboot banner; then — unconditionally in the source — a
second `\r` is sent and `conn_wait_for` awaits the prompt; then the env
and `mmc dev` steps. -/
def sessionSetup (a : Args) (stream : List Char) :
    List Event × Except FlashErr (List Char) :=
  match conn_wait_for_any_loop [uboot_propmt, hit_any_key] stream [] [] with
  | .error e => ([.send .cr], .error e)
  | .ok w1 =>
    match conn_wait_for_loop uboot_propmt w1.rest [] [] with
    | .error e => ([.send .cr, .send .cr], .error e)
    | .ok w2 =>
      let k := serveripStep a w2.rest
      ([.send .cr, .send .cr] ++ k.1, k.2)

/-- Python `os.remove` on the staging artifact, over the one-file state
the driver can observe (does the artifact exist): removal succeeds and
leaves the file absent, or raises `FileNotFoundError` when the file is
already absent. -/
def os_remove (file_exists : Bool) : Except FlashErr Bool :=
  if file_exists then .ok false else .error .fileNotFound

/-- Function `do_flash_image` (lines 88–201). `imageBytes` is the byte sequence
the chunk reads return (the file's bytes on the plain path, the
decompressed stream on the `.xz` path); `stream` is the serial input.
`image_size` is the file size, overridden to `0` on the `.xz` path
(lines 120–123). After the loop, line 194 executes `os.remove` on the
artifact — which raises `FileNotFoundError` if no chunk was ever staged —
and only then is the transport closed. An exception anywhere propagates
(there is no `try/finally`), so the trace ends where the raise happened. -/
def do_flash_image (a : Args) (imageBytes : List Nat) (stream : List Char) :
    List Event × Except FlashErr Unit :=
  match sessionSetup a stream with
  | (tr, .error e) => (tr, .error e)
  | (tr, .ok rest) =>
    let image_size := if use_lzma a then 0 else imageBytes.length
    match flashLoop image_size 0 (base_addr / mmc_block_size) imageBytes rest with
    | (tr2, .error e) => (tr ++ tr2, .error e)
    | (tr2, .ok _) =>
      if tr2.any isStageEvent then
        (tr ++ tr2 ++ [.removeArtifact, .closeConn], .ok ())
      else
        (tr ++ tr2, .error .fileNotFound)

/-- The sizes of the successive chunks delivered by the loop, read off
the trace: the length argument of each `mw.b` fill and the length of
each staged chunk. -/
def chunkSizes (tr : List Event) : List Nat :=
  tr.filterMap fun e =>
    match e with
    | .send (.mwFill _ _ len) => some len
    | .stageChunk d => some d.length
    | _ => none

/-- The chunk decomposition of an image of `n` bytes read in
`chunk_size_in_bytes` pieces: each read returns
`min chunk_size_in_bytes n` bytes until none remain. -/
def chunkLens (n : Nat) : List Nat :=
  if n = 0 then [] else
    min chunk_size_in_bytes n :: chunkLens (n - chunk_size_in_bytes)
termination_by n
decreasing_by
  simp [chunk_size_in_bytes]
  omega

/-- A serial stream consisting of `n` ready prompts in a row. -/
def promptN (n : Nat) : List Char :=
  (List.replicate n uboot_propmt).flatten

-- sanity examples (concrete evaluation of the embedding)
example : strIn uboot_propmt ("abc=>".toList) = true := by decide
example : conn_wait_for uboot_propmt [] =
    .error (.promptTimeout [uboot_propmt]) := by decide
example : buffer_is_00_only [0, 0] = true := by decide
example : buffer_is_00_only [0, 1] = false := by decide
example : readChunk 3 [1, 2, 3, 4] = ([1, 2, 3], [4]) := by decide
example : chunk_size_in_blocks 513 = 2 := by decide
example :
    (do_flash_image ⟨"img.bin".toList, none, none⟩ [1] (promptN 5)).2 =
      .ok () := by decide
example :
    (do_flash_image ⟨"img.bin".toList, none, none⟩ [0] (promptN 5)).2 =
      .error .fileNotFound := by decide

/-! ### Bridging lemmas for the string, chunk and block primitives -/

theorem strStartsWith_iff (n h : List Char) :
    strStartsWith n h = true ↔ n <+: h := by
  induction n generalizing h with
  | nil => simp [strStartsWith]
  | cons a n ih =>
    cases h with
    | nil => simp [strStartsWith]
    | cons b t =>
      simp [strStartsWith, ih, List.cons_prefix_cons]

theorem strIn_iff (n h : List Char) : strIn n h = true ↔ n <:+: h := by
  induction h with
  | nil =>
    simp [strIn]
  | cons c t ih =>
    simp [strIn, strStartsWith_iff, ih, List.infix_cons_iff]

theorem readChunk_eq (n : Nat) (l : List Nat) :
    readChunk n l = (l.take n, l.drop n) := by
  induction l generalizing n with
  | nil => simp [readChunk]
  | cons x xs ih =>
    cases n with
    | zero => simp [readChunk]
    | succ m => simp [readChunk, ih]

theorem buffer_foldl (d : List Nat) (acc : Bool) :
    d.foldl (fun acc b => if b ≠ 0 then false else acc) acc
      = (acc && d.all (fun b => b == 0)) := by
  induction d generalizing acc with
  | nil => simp
  | cons x xs ih =>
    simp only [List.foldl_cons, List.all_cons, ih]
    by_cases hx : x = 0 <;> cases acc <;> simp [hx]

/-- The sparse flag of lines 160–164 is set iff every byte of the chunk
is zero. -/
theorem buffer_is_00_only_iff (d : List Nat) :
    buffer_is_00_only d = true ↔ ∀ b ∈ d, b = 0 := by
  unfold buffer_is_00_only
  rw [buffer_foldl]
  simp

/-- The block count of lines 156–158 is the ceiling division by 512. -/
theorem chunk_size_in_blocks_eq (len : Nat) :
    chunk_size_in_blocks len = (len + 511) / 512 := by
  simp only [chunk_size_in_blocks, block_count, mmc_block_size]
  rcases Nat.eq_zero_or_pos (len % 512) with h | h
  · simp [h]; omega
  · simp [Nat.pos_iff_ne_zero.mp h]; omega

/-- C5: for every chunk length `L > 0` and block size `B > 0`, the block
count computed by lines 156–158 (with the block size as a parameter)
equals `ceil(L / B)`: it satisfies `block_count(L,B) * B ≥ L` and
`(block_count(L,B) - 1) * B < L`. -/
theorem C5_block_count_ceil (L B : Nat) (hL : 0 < L) (hB : 0 < B) :
    block_count L B * B ≥ L ∧ (block_count L B - 1) * B < L := by
  have hdm : B * (L / B) + L % B = L := Nat.div_add_mod L B
  have hmod : L % B < B := Nat.mod_lt L hB
  unfold block_count
  by_cases h : L % B = 0
  · rw [if_neg (by omega)]
    constructor
    · rw [ge_iff_le, Nat.add_zero, Nat.mul_comm]; omega
    · rw [Nat.add_zero, Nat.sub_mul, one_mul, Nat.mul_comm]; omega
  · rw [if_pos h]
    constructor
    · rw [ge_iff_le, Nat.add_mul, one_mul, Nat.mul_comm]; omega
    · rw [Nat.add_sub_cancel, Nat.mul_comm]; omega

/-- Witness for C5 at the concrete input `L = 45`, `B = 7`. -/
theorem C5_witness :
    block_count 45 7 * 7 ≥ 45 ∧ (block_count 45 7 - 1) * 7 < 45 :=
  C5_block_count_ceil 45 7 (by decide) (by decide)

/-! ### The prompt-wait loops -/

/-- C7: in both prompt-wait operations, a read that yields no data makes
the wait fail at once with a `TimeoutError` carrying exactly the awaited
candidate (respectively the awaited candidate list), with no retry: the
loop bodies error out at any point where the stream is exhausted and no
candidate has matched, and in particular both functions fail this way on
an idle link. -/
theorem C7_empty_read_times_out :
    (∀ (expect rcv ech : List Char),
        strIn expect rcv = false →
        conn_wait_for_loop expect [] rcv ech
          = .error (.promptTimeout [expect])) ∧
    (∀ (cands : List (List Char)) (rcv ech : List Char),
        cands.all (fun x => ! strIn x rcv) = true →
        conn_wait_for_any_loop cands [] rcv ech
          = .error (.promptTimeout cands)) ∧
    (∀ expect : List Char, expect ≠ [] →
        conn_wait_for expect [] = .error (.promptTimeout [expect])) ∧
    (∀ cands : List (List Char), (∀ c ∈ cands, c ≠ []) →
        conn_wait_for_any cands [] = .error (.promptTimeout cands)) := by
  have h1 : ∀ (expect rcv ech : List Char), strIn expect rcv = false →
      conn_wait_for_loop expect [] rcv ech
        = .error (.promptTimeout [expect]) := by
    intro expect rcv ech h
    unfold conn_wait_for_loop
    rw [if_neg (by simp [h])]
  have h2 : ∀ (cands : List (List Char)) (rcv ech : List Char),
      cands.all (fun x => ! strIn x rcv) = true →
      conn_wait_for_any_loop cands [] rcv ech
        = .error (.promptTimeout cands) := by
    intro cands rcv ech h
    unfold conn_wait_for_any_loop
    rw [if_pos h]
  refine ⟨h1, h2, ?_, ?_⟩
  · intro expect h
    have h0 : strIn expect [] = false := by
      cases expect with
      | nil => exact absurd rfl h
      | cons a t => rfl
    unfold conn_wait_for
    rw [h1 expect [] [] h0]
    rfl
  · intro cands h
    have h0 : cands.all (fun x => ! strIn x []) = true := by
      rw [List.all_eq_true]
      intro c hc
      have hne := h c hc
      cases c with
      | nil => exact absurd rfl hne
      | cons a t => rfl
    unfold conn_wait_for_any
    rw [h2 cands [] [] h0]
    rfl

/-- Witness for C7: the single-candidate wait on an exhausted stream. -/
theorem C7_witness :
    conn_wait_for uboot_propmt [] = .error (.promptTimeout [uboot_propmt]) :=
  C7_empty_read_times_out.2.2.1 uboot_propmt (by decide)

/-- Growing the buffer preserves a substring match. -/
theorem infix_append_one {a l : List Char} {x : Char} (h : a <:+: l) :
    a <:+: l ++ [x] := by
  obtain ⟨s, t, rfl⟩ := h
  exact ⟨s, t ++ [x], by simp⟩

/-- Completeness of the multi-candidate wait loop: if some candidate
occurs in the buffer formed from the starting buffer and any prefix of
the stream, the loop returns successfully. -/
theorem conn_wait_for_any_loop_complete :
    ∀ (stream rcv ech : List Char) (cands : List (List Char)) (n : Nat),
      (∃ c ∈ cands, c <:+: rcv ++ stream.take n) →
      ∃ w, conn_wait_for_any_loop cands stream rcv ech = .ok w := by
  intro stream
  induction stream with
  | nil =>
    intro rcv ech cands n h
    obtain ⟨c, hc, hinf⟩ := h
    simp only [List.take_nil, List.append_nil] at hinf
    have hs : strIn c rcv = true := (strIn_iff c rcv).mpr hinf
    have hcond : ¬ (cands.all (fun x => ! strIn x rcv) = true) := by
      rw [List.all_eq_true]
      intro hall
      have hx := hall c hc
      simp [hs] at hx
    refine ⟨⟨rcv, ech, []⟩, ?_⟩
    unfold conn_wait_for_any_loop
    rw [if_neg hcond]
  | cons a t ih =>
    intro rcv ech cands n h
    by_cases hcond : cands.all (fun x => ! strIn x rcv) = true
    · obtain ⟨c, hc, hinf⟩ := h
      cases n with
      | zero =>
        simp only [List.take_zero, List.append_nil] at hinf
        have hs : strIn c rcv = true := (strIn_iff c rcv).mpr hinf
        rw [List.all_eq_true] at hcond
        have hx := hcond c hc
        simp [hs] at hx
      | succ m =>
        have hstep : rcv ++ (a :: t).take (m + 1) = (rcv ++ [a]) ++ t.take m := by
          simp
        rw [hstep] at hinf
        obtain ⟨w, hw⟩ := ih (rcv ++ [a])
          (ech ++ if isEchoed a then [a] else []) cands m ⟨c, hc, hinf⟩
        refine ⟨w, ?_⟩
        unfold conn_wait_for_any_loop
        rw [if_pos hcond]
        exact hw
    · refine ⟨⟨rcv, ech, a :: t⟩, ?_⟩
      unfold conn_wait_for_any_loop
      rw [if_neg hcond]

/-- C8 counterexample: the multi-candidate wait returns `()` on success —
it does not return the candidate that matched. Two streams in which
different candidates (the prompt, resp. the autoboot banner) are the one
that appears produce identical results, so no matched-candidate value is
returned. -/
theorem C8_counterexample :
    conn_wait_for_any [uboot_propmt, hit_any_key] uboot_propmt = .ok () ∧
    conn_wait_for_any [uboot_propmt, hit_any_key] hit_any_key = .ok () ∧
    conn_wait_for_any [uboot_propmt, hit_any_key] uboot_propmt
      = conn_wait_for_any [uboot_propmt, hit_any_key] hit_any_key ∧
    uboot_propmt ≠ hit_any_key ∧
    strIn uboot_propmt uboot_propmt = true ∧
    strIn hit_any_key uboot_propmt = false ∧
    strIn hit_any_key hit_any_key = true ∧
    strIn uboot_propmt hit_any_key = false := by
  decide

/-- C8 (amended): for every input stream in which at least one candidate
eventually appears as a substring of the accumulated buffer, the
multi-candidate wait succeeds — but it returns only `()`, not the
matching candidate. -/
theorem C8_wait_any_succeeds (cands : List (List Char)) (stream : List Char)
    (n : Nat) (h : ∃ c ∈ cands, c <:+: stream.take n) :
    conn_wait_for_any cands stream = .ok () := by
  obtain ⟨w, hw⟩ :=
    conn_wait_for_any_loop_complete stream [] [] cands n (by simpa using h)
  unfold conn_wait_for_any
  rw [hw]
  rfl

/-- Witness for C8 at a concrete stream containing the prompt. -/
theorem C8_witness :
    conn_wait_for_any [uboot_propmt, hit_any_key] ("xx=>yy".toList)
      = .ok () :=
  C8_wait_any_succeeds [uboot_propmt, hit_any_key] ("xx=>yy".toList) 4
    ⟨uboot_propmt, by simp, ['x', 'x'], [], by decide⟩

/-- Run characterization of the single-candidate wait loop: on success
the final buffer is the starting buffer plus every consumed stream
character (printable or not), the echo output is exactly the consumed
characters that pass the printable-or-backspace filter, and the match
succeeded on the full buffer. -/
theorem conn_wait_for_loop_ok (expect : List Char) :
    ∀ (stream rcv ech : List Char) (w : WaitState),
      conn_wait_for_loop expect stream rcv ech = .ok w →
      ∃ k, w.rcv = rcv ++ stream.take k ∧
        w.echoed = ech ++ (stream.take k).filter isEchoed ∧
        w.rest = stream.drop k ∧
        strIn expect w.rcv = true := by
  intro stream
  induction stream with
  | nil =>
    intro rcv ech w h
    unfold conn_wait_for_loop at h
    by_cases hc : strIn expect rcv = true
    · rw [if_pos hc] at h
      cases h
      exact ⟨0, by simp, by simp, by simp, hc⟩
    · rw [if_neg hc] at h
      cases h
  | cons a t ih =>
    intro rcv ech w h
    unfold conn_wait_for_loop at h
    by_cases hc : strIn expect rcv = true
    · rw [if_pos hc] at h
      cases h
      exact ⟨0, by simp, by simp, by simp, hc⟩
    · rw [if_neg hc] at h
      obtain ⟨k, h1, h2, h3, h4⟩ :=
        ih (rcv ++ [a]) (ech ++ if isEchoed a then [a] else []) w h
      refine ⟨k + 1, ?_, ?_, ?_, h4⟩
      · rw [h1]; simp
      · rw [h2]
        by_cases he : isEchoed a = true <;>
          simp [List.filter_cons, he]
      · rw [h3]; simp

/-- Run characterization of the multi-candidate wait loop, as for
`conn_wait_for_loop_ok`. -/
theorem conn_wait_for_any_loop_ok (cands : List (List Char)) :
    ∀ (stream rcv ech : List Char) (w : WaitState),
      conn_wait_for_any_loop cands stream rcv ech = .ok w →
      ∃ k, w.rcv = rcv ++ stream.take k ∧
        w.echoed = ech ++ (stream.take k).filter isEchoed ∧
        w.rest = stream.drop k ∧
        cands.any (fun x => strIn x w.rcv) = true := by
  intro stream
  induction stream with
  | nil =>
    intro rcv ech w h
    unfold conn_wait_for_any_loop at h
    by_cases hc : cands.all (fun x => ! strIn x rcv) = true
    · rw [if_pos hc] at h
      cases h
    · rw [if_neg hc] at h
      cases h
      refine ⟨0, by simp, by simp, by simp, ?_⟩
      rw [List.any_eq_true]
      by_contra hno
      push_neg at hno
      apply hc
      rw [List.all_eq_true]
      intro x hx
      have hx2 := hno x hx
      simp only [Bool.not_eq_true] at hx2
      simp [hx2]
  | cons a t ih =>
    intro rcv ech w h
    unfold conn_wait_for_any_loop at h
    by_cases hc : cands.all (fun x => ! strIn x rcv) = true
    · rw [if_pos hc] at h
      obtain ⟨k, h1, h2, h3, h4⟩ :=
        ih (rcv ++ [a]) (ech ++ if isEchoed a then [a] else []) w h
      refine ⟨k + 1, ?_, ?_, ?_, h4⟩
      · rw [h1]; simp
      · rw [h2]
        by_cases he : isEchoed a = true <;>
          simp [List.filter_cons, he]
      · rw [h3]; simp
    · rw [if_neg hc] at h
      cases h
      refine ⟨0, by simp, by simp, by simp, ?_⟩
      rw [List.any_eq_true]
      by_contra hno
      push_neg at hno
      apply hc
      rw [List.all_eq_true]
      intro x hx
      have hx2 := hno x hx
      simp only [Bool.not_eq_true] at hx2
      simp [hx2]

/-- C10: in both prompt-wait operations every received character — even a
non-printable one — is appended to the match buffer and participates in
candidate matching, while the echo output contains exactly the received
characters that are printable or backspace; concretely, a candidate
containing the non-printable NUL character matches a stream carrying it
although NUL is never echoed. -/
theorem C10_buffer_vs_echo :
    (∀ (expect stream rcv ech : List Char) (w : WaitState),
        conn_wait_for_loop expect stream rcv ech = .ok w →
        ∃ k, w.rcv = rcv ++ stream.take k ∧
          w.echoed = ech ++ (stream.take k).filter isEchoed ∧
          w.rest = stream.drop k ∧
          strIn expect w.rcv = true) ∧
    (∀ (cands : List (List Char)) (stream rcv ech : List Char) (w : WaitState),
        conn_wait_for_any_loop cands stream rcv ech = .ok w →
        ∃ k, w.rcv = rcv ++ stream.take k ∧
          w.echoed = ech ++ (stream.take k).filter isEchoed ∧
          w.rest = stream.drop k ∧
          cands.any (fun x => strIn x w.rcv) = true) ∧
    (conn_wait_for_loop ['A', Char.ofNat 0, 'B'] ['A', Char.ofNat 0, 'B'] [] []
        = .ok ⟨['A', Char.ofNat 0, 'B'], ['A', 'B'], []⟩ ∧
      isPrintable (Char.ofNat 0) = false ∧
      isEchoed (Char.ofNat 0) = false) := by
  exact ⟨fun e s r c w h => conn_wait_for_loop_ok e s r c w h,
    fun cs s r c w h => conn_wait_for_any_loop_ok cs s r c w h,
    by decide⟩

/-! ### The transfer loop -/

/-- The events of one chunk's pre-write phase are the fill command or the
stage-plus-fetch pair; none of them is a cleanup, progress, or storage
write event, and the delivered chunk size can be read off them. -/
theorem chunkEvents_inv (d : List Nat) :
    (∀ e ∈ chunkEvents d,
      isRemoveEvent e = false ∧ isCloseEvent e = false ∧
      isMmcWriteSend e = false ∧ ∀ r, e ≠ Event.progress r) ∧
    chunkSizes (chunkEvents d) = [d.length] ∧
    (chunkEvents d).countP isMmcWriteSend = 0 := by
  unfold chunkEvents
  by_cases h : buffer_is_00_only d = true
  · rw [if_pos h]
    refine ⟨?_, rfl, rfl⟩
    intro e he
    simp only [List.mem_singleton] at he
    subst he
    exact ⟨rfl, rfl, rfl, fun r => by simp⟩
  · rw [if_neg h]
    refine ⟨?_, rfl, rfl⟩
    intro e he
    simp only [List.mem_cons, List.mem_singleton] at he
    rcases he with he | he | he
    · subst he; exact ⟨rfl, rfl, rfl, fun r => by simp⟩
    · subst he; exact ⟨rfl, rfl, rfl, fun r => by simp⟩
    · cases he

/-- Every event the transfer loop emits is a send, a chunk staging or a
progress print — never the artifact removal or the transport close — and
every progress print carries the raw byte count when `image_size` is
zero, and the percentage of `image_size` otherwise. -/
theorem flashLoopAux_trace (fuel : Nat) :
    ∀ (isz b blk : Nat) (rem : List Nat) (s : List Char),
      ∀ e ∈ (flashLoopAux fuel isz b blk rem s).1,
        isRemoveEvent e = false ∧ isCloseEvent e = false ∧
        ∀ r, e = Event.progress r →
          (isz = 0 → ∃ n, r = .raw n) ∧
          (isz ≠ 0 → ∃ n, r = .percent n isz (n * 100 / isz)) := by
  induction fuel with
  | zero =>
    intro isz b blk rem s e he
    simp [flashLoopAux] at he
  | succ fuel ih =>
    intro isz b blk rem s e he
    simp only [flashLoopAux] at he
    by_cases hd : (readChunk chunk_size_in_bytes rem).1.isEmpty = true
    · rw [if_pos hd] at he
      simp at he
    · rw [if_neg hd] at he
      rcases h1 : conn_wait_for_loop uboot_propmt s [] [] with e1 | w1 <;>
        rw [h1] at he
      · simp only at he
        obtain ⟨hA, hB, hC, hD⟩ := (chunkEvents_inv _).1 e he
        exact ⟨hA, hB, fun r hr => absurd hr (hD r)⟩
      · simp only at he
        rcases h2 : conn_wait_for_loop uboot_propmt w1.rest [] [] with e2 | w2 <;>
          rw [h2] at he
        · simp only [List.mem_append, List.mem_singleton] at he
          rcases he with he | he
          · obtain ⟨hA, hB, hC, hD⟩ := (chunkEvents_inv _).1 e he
            exact ⟨hA, hB, fun r hr => absurd hr (hD r)⟩
          · subst he; exact ⟨rfl, rfl, fun r hr => nomatch hr⟩
        · simp only [List.mem_append, List.mem_singleton] at he
          rcases he with ((he | he) | he) | he
          · obtain ⟨hA, hB, hC, hD⟩ := (chunkEvents_inv _).1 e he
            exact ⟨hA, hB, fun r hr => absurd hr (hD r)⟩
          · subst he; exact ⟨rfl, rfl, fun r hr => nomatch hr⟩
          · subst he
            refine ⟨rfl, rfl, fun r hr => ?_⟩
            cases hr
            constructor
            · intro h0
              rw [if_neg (by simp [h0])]
              exact ⟨_, rfl⟩
            · intro h0
              rw [if_pos h0]
              exact ⟨_, rfl⟩
          · exact ih _ _ _ _ _ e he

/-- On normal exit the transfer loop has moved every remaining byte into
`bytes_sent`, advanced the block cursor by the ceiling of the byte count
over the block size, delivered exactly the chunk decomposition of the
remainder, and sent one `mmc write` per chunk. -/
theorem flashLoopAux_ok_totals (fuel : Nat) :
    ∀ (rem : List Nat), rem.length ≤ fuel →
    ∀ (isz b blk : Nat) (s : List Char) (tr : List Event)
      (b' blk' : Nat) (rest : List Char),
      flashLoopAux fuel isz b blk rem s = (tr, .ok (b', blk', rest)) →
      b' = b + rem.length ∧
      blk' = blk + (rem.length + 511) / 512 ∧
      chunkSizes tr = chunkLens rem.length ∧
      tr.countP isMmcWriteSend = (chunkLens rem.length).length := by
  induction fuel with
  | zero =>
    intro rem hle isz b blk s tr b' blk' rest h
    have hrem : rem = [] := by
      cases rem with
      | nil => rfl
      | cons x xs => simp at hle
    subst hrem
    simp only [flashLoopAux, Prod.mk.injEq, Except.ok.injEq] at h
    obtain ⟨htr, hb, hblk, hrest⟩ := h
    subst htr
    constructor
    · simp only [List.length_nil]; omega
    constructor
    · simp only [List.length_nil]; omega
    constructor
    · rw [chunkLens]; simp [chunkSizes]
    · rw [chunkLens]; simp
  | succ fuel ih =>
    intro rem hle isz b blk s tr b' blk' rest h
    simp only [flashLoopAux] at h
    by_cases hd : (readChunk chunk_size_in_bytes rem).1.isEmpty = true
    · rw [if_pos hd] at h
      have hrem : rem = [] := by
        rw [readChunk_eq] at hd
        simp only [List.isEmpty_eq_true, List.take_eq_nil_iff] at hd
        rcases hd with hd | hd
        · exact absurd hd (by simp [chunk_size_in_bytes])
        · exact hd
      subst hrem
      simp only [Prod.mk.injEq, Except.ok.injEq] at h
      obtain ⟨htr, hb, hblk, hrest⟩ := h
      subst htr
      constructor
      · simp only [List.length_nil]; omega
      constructor
      · simp only [List.length_nil]; omega
      constructor
      · rw [chunkLens]; simp [chunkSizes]
      · rw [chunkLens]; simp
    · rw [if_neg hd] at h
      have hremne : rem ≠ [] := by
        intro hcon
        subst hcon
        simp [readChunk, List.isEmpty_eq_true] at hd
      rcases h1 : conn_wait_for_loop uboot_propmt s [] [] with e1 | w1 <;>
        rw [h1] at h
      · simp at h
      · simp only at h
        rcases h2 : conn_wait_for_loop uboot_propmt w1.rest [] [] with e2 | w2 <;>
          rw [h2] at h
        · simp at h
        · simp only [Prod.mk.injEq] at h
          obtain ⟨htr, hk⟩ := h
          have hlen : (readChunk chunk_size_in_bytes rem).2.length ≤ fuel := by
            rw [readChunk_eq]
            simp only [List.length_drop]
            have : 1 ≤ rem.length := by
              cases rem with
              | nil => exact absurd rfl hremne
              | cons x xs => simp
            have : 1 ≤ chunk_size_in_bytes := by simp [chunk_size_in_bytes]
            omega
          have heq : flashLoopAux fuel isz
              (b + (readChunk chunk_size_in_bytes rem).1.length)
              (blk + chunk_size_in_blocks (readChunk chunk_size_in_bytes rem).1.length)
              (readChunk chunk_size_in_bytes rem).2 w2.rest
              = ((flashLoopAux fuel isz
                  (b + (readChunk chunk_size_in_bytes rem).1.length)
                  (blk + chunk_size_in_blocks (readChunk chunk_size_in_bytes rem).1.length)
                  (readChunk chunk_size_in_bytes rem).2 w2.rest).1,
                 .ok (b', blk', rest)) := by
            rw [← hk]
          obtain ⟨ihb, ihblk, ihsz, ihcnt⟩ := ih _ hlen _ _ _ _ _ _ _ _ heq
          have htake : (readChunk chunk_size_in_bytes rem).1.length
              = min chunk_size_in_bytes rem.length := by
            rw [readChunk_eq]; simp
          have hdrop : (readChunk chunk_size_in_bytes rem).2.length
              = rem.length - chunk_size_in_bytes := by
            rw [readChunk_eq]; simp
          have hlen1 : 1 ≤ rem.length := by
            cases rem with
            | nil => exact absurd rfl hremne
            | cons x xs => simp
          have hcs : chunk_size_in_bytes = 20971520 := by rfl
          constructor
          · rw [ihb, htake, hdrop, hcs]
            rcases Nat.le_total rem.length 20971520 with hc | hc
            · rw [Nat.min_eq_right hc]; omega
            · rw [Nat.min_eq_left hc]; omega
          constructor
          · rw [ihblk, htake, hdrop, chunk_size_in_blocks_eq, hcs]
            rcases Nat.le_total rem.length 20971520 with hc | hc
            · rw [Nat.min_eq_right hc]; omega
            · rw [Nat.min_eq_left hc]; omega
          have hlens : chunkLens rem.length
              = (readChunk chunk_size_in_bytes rem).1.length
                :: chunkLens (readChunk chunk_size_in_bytes rem).2.length := by
            rw [chunkLens]
            rw [if_neg (by omega)]
            rw [htake, hdrop]
          constructor
          · rw [← htr]
            simp only [chunkSizes, List.filterMap_append]
            rw [← chunkSizes, ← chunkSizes, ← chunkSizes, ← chunkSizes]
            rw [(chunkEvents_inv _).2.1, ihsz, hlens]
            rfl
          · rw [← htr]
            simp only [List.countP_append]
            rw [(chunkEvents_inv _).2.2, ihcnt, hlens]
            have hc1 : List.countP isMmcWriteSend
                [Event.send (Cmd.mmcWrite load_addr blk
                  (chunk_size_in_blocks (readChunk chunk_size_in_bytes rem).1.length))] = 1 := rfl
            have hc2 : ∀ r, List.countP isMmcWriteSend [Event.progress r] = 0 :=
              fun r => rfl
            rw [hc1, hc2]
            simp only [List.length_cons]
            omega

/-- The chunk decomposition of a 45 MiB image: two 20 MiB chunks and one
5 MiB chunk. -/
theorem chunkLens_45MiB :
    chunkLens (45 * 1024 * 1024)
      = [20 * 1024 * 1024, 20 * 1024 * 1024, 5 * 1024 * 1024] := by
  have h1 : chunkLens 47185920 = 20971520 :: chunkLens 26214400 := by
    rw [chunkLens]
    norm_num [chunk_size_in_bytes, Nat.min_def]
  have h2 : chunkLens 26214400 = 20971520 :: chunkLens 5242880 := by
    rw [chunkLens]
    norm_num [chunk_size_in_bytes, Nat.min_def]
  have h3 : chunkLens 5242880 = 5242880 :: chunkLens 0 := by
    rw [chunkLens]
    norm_num [chunk_size_in_bytes, Nat.min_def]
  have h4 : chunkLens 0 = [] := by
    rw [chunkLens]
    norm_num
  norm_num [h1, h2, h3, h4]

/-- C3: on the non-compressed path (`image_size` is the image's length,
the byte counter starts at 0), a transfer loop that runs to completion
accumulates exactly the image's total size in the bytes-sent counter,
leaves the block cursor at `base_block + ceil(total_size / 512)`, and
delivers exactly the greedy 20 MiB chunk decomposition of the image with
one `mmc write` per chunk; in particular a 45 MiB image decomposes into
chunks of 20 MiB, 20 MiB and 5 MiB, and its final cursor offset is
`ceil(45*1024*1024/512) = 92160`. -/
theorem C3_transfer_totals (img : List Nat) (stream : List Char) (blk0 : Nat)
    (tr : List Event) (b' blk' : Nat) (rest : List Char)
    (h : flashLoop img.length 0 blk0 img stream = (tr, .ok (b', blk', rest))) :
    b' = img.length ∧
    blk' = blk0 + (img.length + 511) / 512 ∧
    chunkSizes tr = chunkLens img.length ∧
    tr.countP isMmcWriteSend = (chunkLens img.length).length ∧
    chunkLens (45 * 1024 * 1024)
      = [20 * 1024 * 1024, 20 * 1024 * 1024, 5 * 1024 * 1024] ∧
    (45 * 1024 * 1024 + 511) / 512 = 92160 := by
  obtain ⟨h1, h2, h3, h4⟩ := flashLoopAux_ok_totals img.length img (le_refl _)
    img.length 0 blk0 stream tr b' blk' rest h
  exact ⟨by omega, h2, h3, h4, chunkLens_45MiB, by norm_num⟩

/-- Witness for C3: a one-chunk image of three bytes, block cursor
starting at 7. -/
theorem C3_witness :
    (3 : Nat) = ([1, 2, 3] : List Nat).length ∧
    (8 : Nat) = 7 + (([1, 2, 3] : List Nat).length + 511) / 512 ∧
    chunkSizes [Event.stageChunk [1, 2, 3],
        Event.send (Cmd.tftpFetch load_addr chunk_filename),
        Event.send (Cmd.mmcWrite load_addr 7 1),
        Event.progress (Report.percent 3 3 100)]
      = chunkLens ([1, 2, 3] : List Nat).length ∧
    List.countP isMmcWriteSend [Event.stageChunk [1, 2, 3],
        Event.send (Cmd.tftpFetch load_addr chunk_filename),
        Event.send (Cmd.mmcWrite load_addr 7 1),
        Event.progress (Report.percent 3 3 100)]
      = (chunkLens ([1, 2, 3] : List Nat).length).length ∧
    chunkLens (45 * 1024 * 1024)
      = [20 * 1024 * 1024, 20 * 1024 * 1024, 5 * 1024 * 1024] ∧
    (45 * 1024 * 1024 + 511) / 512 = 92160 :=
  C3_transfer_totals [1, 2, 3] (promptN 2) 7
    [Event.stageChunk [1, 2, 3],
      Event.send (Cmd.tftpFetch load_addr chunk_filename),
      Event.send (Cmd.mmcWrite load_addr 7 1),
      Event.progress (Report.percent 3 3 100)]
    3 8 [] (by decide)

/-- C4: a chunk is classified sparse iff every one of its bytes is zero;
a sparse chunk produces exactly one memory-fill command covering its
length (and is never staged or fetched), a non-sparse chunk produces
exactly the stage-plus-fetch pair (and no fill); and the block-cursor
advance of a single-chunk run is `chunk_size_in_blocks` of the chunk's
length — a function of the length only, hence identical for sparse and
non-sparse chunks of equal length. -/
theorem C4_sparse_classification :
    (∀ data : List Nat, buffer_is_00_only data = true ↔ ∀ b ∈ data, b = 0) ∧
    (∀ data : List Nat, buffer_is_00_only data = true →
        chunkEvents data = [.send (.mwFill load_addr 0 data.length)]) ∧
    (∀ data : List Nat, buffer_is_00_only data = false →
        chunkEvents data
          = [.stageChunk data, .send (.tftpFetch load_addr chunk_filename)]) ∧
    (∀ (isz b0 blk0 : Nat) (d : List Nat) (s : List Char) (tr : List Event)
        (b' blk' : Nat) (rest : List Char),
        d.length ≤ chunk_size_in_bytes →
        flashLoop isz b0 blk0 d s = (tr, .ok (b', blk', rest)) →
        blk' = blk0 + chunk_size_in_blocks d.length) := by
  refine ⟨buffer_is_00_only_iff, ?_, ?_, ?_⟩
  · intro data h
    unfold chunkEvents
    rw [if_pos h]
  · intro data h
    unfold chunkEvents
    rw [if_neg (by simp [h])]
  · intro isz b0 blk0 d s tr b' blk' rest hlen h
    obtain ⟨h1, h2, h3, h4⟩ := flashLoopAux_ok_totals d.length d (le_refl _)
      isz b0 blk0 s tr b' blk' rest h
    rw [h2, chunk_size_in_blocks_eq]

/-- Witness for C4: an all-zero chunk, a non-zero chunk, and the cursor
advance of a concrete one-chunk sparse run. -/
theorem C4_witness :
    chunkEvents [0, 0] = [.send (.mwFill load_addr 0 2)] ∧
    chunkEvents [5]
      = [.stageChunk [5], .send (.tftpFetch load_addr chunk_filename)] ∧
    (8 : Nat) = 7 + chunk_size_in_blocks ([0] : List Nat).length := by
  refine ⟨?_, ?_, ?_⟩
  · have h := C4_sparse_classification.2.1 [0, 0] (by decide)
    simpa using h
  · have h := C4_sparse_classification.2.2.1 [5] (by decide)
    simpa using h
  · exact C4_sparse_classification.2.2.2 1 0 7 [0] (promptN 2)
      [Event.send (Cmd.mwFill load_addr 0 1),
        Event.send (Cmd.mmcWrite load_addr 7 1),
        Event.progress (Report.percent 1 1 100)]
      1 8 [] (by decide) (by decide)

/-- C6 counterexample: the unstage operation of line 194 is a plain
`os.remove`: invoked when the artifact is absent it raises
`FileNotFoundError` (so it is not callable twice, the second call fails),
and a session whose image is entirely zero bytes — which therefore never
stages an artifact — fails with `FileNotFoundError` at cleanup despite a
fully successful transfer. -/
theorem C6_counterexample :
    os_remove true = .ok false ∧
    os_remove false = .error .fileNotFound ∧
    (do_flash_image ⟨"img.bin".toList, none, none⟩ [0, 0] (promptN 5)).2
      = .error .fileNotFound := by
  exact ⟨rfl, rfl, by decide⟩

/-- C6 (amended): the unstage operation is a bare `os.remove`: it
succeeds exactly when the artifact exists and raises `FileNotFoundError`
when it is absent, so calling it with no artifact ever created fails the
session and a second call after a successful one fails; on the success
path of `do_flash_image` the removal is reached only when a chunk was
actually staged. -/
theorem C6_unstage_remove_semantics :
    (∀ b : Bool,
        os_remove b = if b then .ok false else .error .fileNotFound) ∧
    (∀ after, os_remove true = .ok after →
        os_remove after = .error .fileNotFound) ∧
    (∀ (a : Args) (img : List Nat) (s : List Char) (tr : List Event),
        do_flash_image a img s = (tr, .ok ()) →
        tr.any isStageEvent = true) := by
  refine ⟨fun b => rfl, ?_, ?_⟩
  · intro after h
    have hafter : after = false := by
      simpa [os_remove] using h.symm
    subst hafter
    rfl
  · intro a img s tr h
    unfold do_flash_image at h
    rcases hs : sessionSetup a s with ⟨tr0, r0⟩
    rw [hs] at h
    rcases r0 with e0 | rest
    · simp at h
    · simp only at h
      rcases hl : flashLoop (if use_lzma a then 0 else img.length) 0
          (base_addr / mmc_block_size) img rest with ⟨tr2, r2⟩
      rw [hl] at h
      rcases r2 with e2 | fin
      · simp at h
      · simp only at h
        by_cases hstage : tr2.any isStageEvent = true
        · rw [if_pos hstage] at h
          have htr : tr0 ++ tr2 ++ [Event.removeArtifact, Event.closeConn]
              = tr := by
            have hfst := congrArg Prod.fst h
            simpa using hfst
          rw [← htr]
          simp [List.any_append, hstage]
        · rw [if_neg hstage] at h
          simp at h

/-- Witness for C6: the second-call behaviour at the concrete state. -/
theorem C6_witness : os_remove false = .error .fileNotFound :=
  C6_unstage_remove_semantics.2.1 false (by decide)

/-! ### Session setup and the end-to-end session -/

theorem mmcDevStep_sends (s : List Char) :
    ∀ e ∈ (mmcDevStep s).1, ∃ c, e = Event.send c := by
  intro e he
  unfold mmcDevStep at he
  rcases h : conn_wait_for_loop uboot_propmt s [] [] with e1 | w <;>
    rw [h] at he <;> simp only at he <;>
    simp only [List.mem_singleton] at he <;> exact ⟨_, he⟩

theorem ipaddrStep_sends (a : Args) (s : List Char) :
    ∀ e ∈ (ipaddrStep a s).1, ∃ c, e = Event.send c := by
  intro e he
  unfold ipaddrStep at he
  cases hip : a.ipaddr with
  | none =>
    rw [hip] at he
    simp only at he
    exact mmcDevStep_sends s e he
  | some ip =>
    rw [hip] at he
    simp only at he
    by_cases hie : ip.isEmpty = true
    · rw [if_pos hie] at he
      exact mmcDevStep_sends s e he
    · rw [if_neg hie] at he
      rcases h : conn_wait_for_loop uboot_propmt s [] [] with e1 | w <;>
        rw [h] at he <;> simp only at he
      · simp only [List.mem_singleton] at he
        exact ⟨_, he⟩
      · simp only [List.singleton_append, List.mem_cons] at he
        rcases he with he | he
        · exact ⟨_, he⟩
        · exact mmcDevStep_sends _ e he

theorem serveripStep_sends (a : Args) (s : List Char) :
    ∀ e ∈ (serveripStep a s).1, ∃ c, e = Event.send c := by
  intro e he
  unfold serveripStep at he
  cases hip : a.serverip with
  | none =>
    rw [hip] at he
    simp only at he
    exact ipaddrStep_sends a s e he
  | some ip =>
    rw [hip] at he
    simp only at he
    by_cases hie : ip.isEmpty = true
    · rw [if_pos hie] at he
      exact ipaddrStep_sends a s e he
    · rw [if_neg hie] at he
      rcases h : conn_wait_for_loop uboot_propmt s [] [] with e1 | w <;>
        rw [h] at he <;> simp only at he
      · simp only [List.mem_singleton] at he
        exact ⟨_, he⟩
      · simp only [List.singleton_append, List.mem_cons] at he
        rcases he with he | he
        · exact ⟨_, he⟩
        · exact ipaddrStep_sends a _ e he

/-- Every event emitted during prompt negotiation and environment
configuration is a command send. -/
theorem sessionSetup_sends (a : Args) (s : List Char) :
    ∀ e ∈ (sessionSetup a s).1, ∃ c, e = Event.send c := by
  intro e he
  unfold sessionSetup at he
  rcases h1 : conn_wait_for_any_loop [uboot_propmt, hit_any_key] s [] [] with e1 | w1 <;>
    rw [h1] at he <;> simp only at he
  · simp only [List.mem_singleton] at he
    exact ⟨_, he⟩
  · rcases h2 : conn_wait_for_loop uboot_propmt w1.rest [] [] with e2 | w2 <;>
      rw [h2] at he <;> simp only at he
    · simp only [List.mem_cons, List.not_mem_nil, or_false] at he
      rcases he with he | he <;> exact ⟨_, he⟩
    · simp only [List.cons_append, List.nil_append, List.mem_cons] at he
      rcases he with he | he | he
      · exact ⟨_, he⟩
      · exact ⟨_, he⟩
      · exact serveripStep_sends a _ e he

theorem sessionSetup_countP_zero (a : Args) (s : List Char) (p : Event → Bool)
    (hp : ∀ c, p (Event.send c) = false) :
    (sessionSetup a s).1.countP p = 0 := by
  rw [List.countP_eq_zero]
  intro e he
  obtain ⟨c, rfl⟩ := sessionSetup_sends a s e he
  simp [hp]

theorem flashLoop_countP_remove_close (isz b blk : Nat) (rem : List Nat)
    (st : List Char) :
    (flashLoop isz b blk rem st).1.countP isRemoveEvent = 0 ∧
    (flashLoop isz b blk rem st).1.countP isCloseEvent = 0 := by
  constructor <;> rw [List.countP_eq_zero] <;> intro e he
  · have h := (flashLoopAux_trace rem.length isz b blk rem st e he).1
    simp [h]
  · have h := (flashLoopAux_trace rem.length isz b blk rem st e he).2.1
    simp [h]

/-- The session trace always extends the setup trace. -/
theorem do_flash_image_trace_head (a : Args) (img : List Nat) (s : List Char) :
    ∃ l, (do_flash_image a img s).1 = (sessionSetup a s).1 ++ l := by
  rcases hs : sessionSetup a s with ⟨tr0, r0⟩
  rcases r0 with e0 | rest
  · have hd : do_flash_image a img s = (tr0, .error e0) := by
      unfold do_flash_image
      rw [hs]
    rw [hd]
    exact ⟨[], by simp⟩
  · rcases hl : flashLoop (if use_lzma a then 0 else img.length) 0
        (base_addr / mmc_block_size) img rest with ⟨tr2, r2⟩
    rcases r2 with e2 | fin
    · have hd : do_flash_image a img s = (tr0 ++ tr2, .error e2) := by
        unfold do_flash_image
        rw [hs]
        simp only
        rw [hl]
      rw [hd]
      exact ⟨tr2, by simp⟩
    · by_cases hstage : tr2.any isStageEvent = true
      · have hd : do_flash_image a img s
            = (tr0 ++ tr2 ++ [.removeArtifact, .closeConn], .ok ()) := by
          unfold do_flash_image
          rw [hs]
          simp only
          rw [hl]
          simp only
          rw [if_pos hstage]
        rw [hd]
        exact ⟨tr2 ++ [.removeArtifact, .closeConn], by simp⟩
      · have hd : do_flash_image a img s = (tr0 ++ tr2, .error .fileNotFound) := by
          unfold do_flash_image
          rw [hs]
          simp only
          rw [hl]
          simp only
          rw [if_neg hstage]
        rw [hd]
        exact ⟨tr2, by simp⟩

/-- C1 counterexample: a session whose first transfer-loop prompt wait
times out (the serial stream carries only the three setup prompts) fails
with `PromptTimeout` while performing neither the artifact removal nor
the transport close — cleanup is not reached on the failure path. -/
theorem C1_counterexample :
    (do_flash_image ⟨"img.bin".toList, none, none⟩ [1] (promptN 3)).2
      = .error (.promptTimeout [uboot_propmt]) ∧
    (do_flash_image ⟨"img.bin".toList, none, none⟩ [1]
        (promptN 3)).1.countP isRemoveEvent = 0 ∧
    (do_flash_image ⟨"img.bin".toList, none, none⟩ [1]
        (promptN 3)).1.countP isCloseEvent = 0 := by
  decide

/-- C1 (amended): cleanup is conditional on success: a session that
returns normally performs the artifact removal and the transport close
exactly once each, while a session that fails with any exception performs
neither — the exception propagates out of `do_flash_image` (there is no
`try/finally`) and the top-level handler only logs it. -/
theorem C1_cleanup_only_on_success (a : Args) (img : List Nat) (s : List Char) :
    ((do_flash_image a img s).2 = .ok () →
      ((do_flash_image a img s).1.countP isRemoveEvent = 1 ∧
       (do_flash_image a img s).1.countP isCloseEvent = 1)) ∧
    (∀ e, (do_flash_image a img s).2 = .error e →
      ((do_flash_image a img s).1.countP isRemoveEvent = 0 ∧
       (do_flash_image a img s).1.countP isCloseEvent = 0)) := by
  have hsetR : (sessionSetup a s).1.countP isRemoveEvent = 0 :=
    sessionSetup_countP_zero a s isRemoveEvent (fun c => rfl)
  have hsetC : (sessionSetup a s).1.countP isCloseEvent = 0 :=
    sessionSetup_countP_zero a s isCloseEvent (fun c => rfl)
  obtain ⟨hloopR, hloopC⟩ := flashLoop_countP_remove_close
    (if use_lzma a then 0 else img.length) 0 (base_addr / mmc_block_size) img
    ((match sessionSetup a s with
      | (_, .ok rest) => rest
      | (_, .error _) => []))
  rcases hs : sessionSetup a s with ⟨tr0, r0⟩
  rw [hs] at hsetR hsetC hloopR hloopC
  simp only at hsetR hsetC hloopR hloopC
  rcases r0 with e0 | rest
  · have hd : do_flash_image a img s = (tr0, .error e0) := by
      unfold do_flash_image
      rw [hs]
    rw [hd]
    constructor
    · intro hok
      simp at hok
    · intro e he
      exact ⟨hsetR, hsetC⟩
  · simp only at hloopR hloopC
    rcases hl : flashLoop (if use_lzma a then 0 else img.length) 0
        (base_addr / mmc_block_size) img rest with ⟨tr2, r2⟩
    rw [hl] at hloopR hloopC
    simp only at hloopR hloopC
    rcases r2 with e2 | fin
    · have hd : do_flash_image a img s = (tr0 ++ tr2, .error e2) := by
        unfold do_flash_image
        rw [hs]
        simp only
        rw [hl]
      rw [hd]
      constructor
      · intro hok
        simp at hok
      · intro e he
        exact ⟨by rw [List.countP_append, hsetR, hloopR],
          by rw [List.countP_append, hsetC, hloopC]⟩
    · by_cases hstage : tr2.any isStageEvent = true
      · have hd : do_flash_image a img s
            = (tr0 ++ tr2 ++ [.removeArtifact, .closeConn], .ok ()) := by
          unfold do_flash_image
          rw [hs]
          simp only
          rw [hl]
          simp only
          rw [if_pos hstage]
        rw [hd]
        constructor
        · intro _
          constructor
          · rw [List.countP_append, List.countP_append, hsetR, hloopR]
            rfl
          · rw [List.countP_append, List.countP_append, hsetC, hloopC]
            rfl
        · intro e he
          simp at he
      · have hd : do_flash_image a img s = (tr0 ++ tr2, .error .fileNotFound) := by
          unfold do_flash_image
          rw [hs]
          simp only
          rw [hl]
          simp only
          rw [if_neg hstage]
        rw [hd]
        constructor
        · intro hok
          simp at hok
        · intro e he
          exact ⟨by rw [List.countP_append, hsetR, hloopR],
            by rw [List.countP_append, hsetC, hloopC]⟩

/-- Witness for C1: a successful one-chunk session removes the artifact
and closes the transport exactly once. -/
theorem C1_witness :
    (do_flash_image ⟨"img.bin".toList, none, none⟩ [1]
        (promptN 5)).1.countP isRemoveEvent = 1 ∧
    (do_flash_image ⟨"img.bin".toList, none, none⟩ [1]
        (promptN 5)).1.countP isCloseEvent = 1 :=
  (C1_cleanup_only_on_success ⟨"img.bin".toList, none, none⟩ [1]
    (promptN 5)).1 (by decide)

/-- C2 counterexample: a stream that answers the first carriage return
with the ready prompt and then goes silent. If the interrupt step were
skipped the session would proceed to environment configuration (the next
event would be the `mmc dev` send); instead the code sends a second
carriage return and performs a second wait for the ready prompt, which
times out — the returned error names the single candidate of
`conn_wait_for`, not the candidate pair of the first wait. -/
theorem C2_counterexample :
    do_flash_image ⟨"img.bin".toList, none, none⟩ [1] ("=>".toList)
      = ([.send .cr, .send .cr], .error (.promptTimeout [uboot_propmt])) := by
  decide

/-- C2 (amended): the autoboot-interrupt step is unconditional — even
when the ready prompt appears directly in response to the first carriage
return, the session sends a second carriage return and performs a second
wait for the ready prompt before environment configuration, and a failure
of that second wait fails the session. -/
theorem C2_always_interrupt_step (a : Args) (img : List Nat) (s : List Char)
    (w1 : WaitState)
    (h : conn_wait_for_any_loop [uboot_propmt, hit_any_key] s [] [] = .ok w1) :
    (do_flash_image a img s).1.take 2 = [.send .cr, .send .cr] ∧
    (∀ e, conn_wait_for_loop uboot_propmt w1.rest [] [] = .error e →
      do_flash_image a img s = ([.send .cr, .send .cr], .error e)) := by
  rcases h2 : conn_wait_for_loop uboot_propmt w1.rest [] [] with e2 | w2
  · have hd : do_flash_image a img s = ([.send .cr, .send .cr], .error e2) := by
      unfold do_flash_image sessionSetup
      rw [h]
      simp only
      rw [h2]
    rw [hd]
    refine ⟨rfl, ?_⟩
    intro e he
    injection he with h4
    rw [h4]
  · have hset : sessionSetup a s
        = ([.send .cr, .send .cr] ++ (serveripStep a w2.rest).1,
           (serveripStep a w2.rest).2) := by
      unfold sessionSetup
      rw [h]
      simp only
      rw [h2]
    constructor
    · obtain ⟨l, hl2⟩ := do_flash_image_trace_head a img s
      rw [hl2, hset]
      simp [List.take_append_eq_append_take]
    · intro e he
      cases he

/-- Witness for C2: the concrete stream that emits the prompt directly. -/
theorem C2_witness :
    (do_flash_image ⟨"img.bin".toList, none, none⟩ [1]
        ("=>".toList)).1.take 2 = [.send .cr, .send .cr] :=
  (C2_always_interrupt_step ⟨"img.bin".toList, none, none⟩ [1] ("=>".toList)
    ⟨"=>".toList, "=>".toList, []⟩ (by decide)).1

/-- C9: on the `.xz` path (`use_lzma` true) the total size is recorded
as 0 — unknown — and every progress report in the session trace is a raw
byte count; on the plain path every progress report is a percentage of
the image's total size. -/
theorem C9_progress_reporting (a : Args) (img : List Nat) (s : List Char) :
    (use_lzma a = true →
      ∀ r, Event.progress r ∈ (do_flash_image a img s).1 → ∃ n, r = .raw n) ∧
    (use_lzma a = false →
      ∀ r, Event.progress r ∈ (do_flash_image a img s).1 →
        ∃ n, r = .percent n img.length (n * 100 / img.length)) := by
  have key : ∀ r, Event.progress r ∈ (do_flash_image a img s).1 →
      (((if use_lzma a then 0 else img.length) : Nat) = 0 → ∃ n, r = .raw n) ∧
      (((if use_lzma a then 0 else img.length) : Nat) ≠ 0 →
        ∃ n, r = .percent n (if use_lzma a then 0 else img.length)
          (n * 100 / (if use_lzma a then 0 else img.length))) := by
    intro r hr
    unfold do_flash_image at hr
    rcases hs : sessionSetup a s with ⟨tr0, r0⟩
    rw [hs] at hr
    rcases r0 with e0 | rest
    · simp only at hr
      obtain ⟨c, hc⟩ := sessionSetup_sends a s _ (by rw [hs]; exact hr)
      cases hc
    · simp only at hr
      rcases hl : flashLoop (if use_lzma a then 0 else img.length) 0
          (base_addr / mmc_block_size) img rest with ⟨tr2, r2⟩
      rw [hl] at hr
      have htr2 : (flashLoopAux img.length (if use_lzma a then 0 else img.length)
          0 (base_addr / mmc_block_size) img rest).1 = tr2 :=
        congrArg Prod.fst hl
      rcases r2 with e2 | fin
      · simp only at hr
        rcases List.mem_append.mp hr with hm | hm
        · obtain ⟨c, hc⟩ := sessionSetup_sends a s _ (by rw [hs]; exact hm)
          cases hc
        · exact (flashLoopAux_trace img.length _ 0 _ img rest _
            (htr2 ▸ hm)).2.2 r rfl
      · simp only at hr
        by_cases hstage : tr2.any isStageEvent = true
        · rw [if_pos hstage] at hr
          simp only at hr
          rcases List.mem_append.mp hr with hm | hm
          · rcases List.mem_append.mp hm with hm2 | hm2
            · obtain ⟨c, hc⟩ := sessionSetup_sends a s _ (by rw [hs]; exact hm2)
              cases hc
            · exact (flashLoopAux_trace img.length _ 0 _ img rest _
                (htr2 ▸ hm2)).2.2 r rfl
          · simp at hm
        · rw [if_neg hstage] at hr
          simp only at hr
          rcases List.mem_append.mp hr with hm | hm
          · obtain ⟨c, hc⟩ := sessionSetup_sends a s _ (by rw [hs]; exact hm)
            cases hc
          · exact (flashLoopAux_trace img.length _ 0 _ img rest _
              (htr2 ▸ hm)).2.2 r rfl
  have hempty : img.length = 0 →
      ∀ r, Event.progress r ∉ (do_flash_image a img s).1 := by
    intro h0 r hr
    have himgnil : img = [] := List.length_eq_zero.mp h0
    subst himgnil
    unfold do_flash_image at hr
    rcases hs : sessionSetup a s with ⟨tr0, r0⟩
    rw [hs] at hr
    rcases r0 with e0 | rest
    · simp only at hr
      obtain ⟨c, hc⟩ := sessionSetup_sends a s _ (by rw [hs]; exact hr)
      cases hc
    · simp only [flashLoop, flashLoopAux, List.length_nil, List.any_nil,
        List.append_nil, Bool.false_eq_true, if_false] at hr
      obtain ⟨c, hc⟩ := sessionSetup_sends a s _ (by rw [hs]; exact hr)
      cases hc
  constructor
  · intro hlz r hr
    have hk := (key r hr).1
    rw [if_pos hlz] at hk
    exact hk rfl
  · intro hlz r hr
    by_cases himg : img.length = 0
    · exact absurd hr (hempty himg r)
    · have hk := (key r hr).2
      rw [if_neg (by simp [hlz])] at hk
      exact hk himg

/-- Witness for C9: a concrete `.xz` session whose progress reports are
all raw byte counts. -/
theorem C9_witness :
    ∀ r, Event.progress r ∈ (do_flash_image ⟨"image.xz".toList, none, none⟩
      [1] (promptN 5)).1 → ∃ n, r = Report.raw n :=
  (C9_progress_reporting ⟨"image.xz".toList, none, none⟩ [1] (promptN 5)).1
    (by decide)

/-- Witness for C10: the run characterization applied to a concrete
stream containing a NUL byte. -/
theorem C10_witness :
    ∃ k,
      (⟨['A', Char.ofNat 0, 'B'], ['A', 'B'], []⟩ : WaitState).rcv
          = [] ++ List.take k ['A', Char.ofNat 0, 'B'] ∧
      (⟨['A', Char.ofNat 0, 'B'], ['A', 'B'], []⟩ : WaitState).echoed
          = [] ++ (List.take k ['A', Char.ofNat 0, 'B']).filter isEchoed ∧
      (⟨['A', Char.ofNat 0, 'B'], ['A', 'B'], []⟩ : WaitState).rest
          = List.drop k ['A', Char.ofNat 0, 'B'] ∧
      strIn ['A', Char.ofNat 0, 'B']
        (⟨['A', Char.ofNat 0, 'B'], ['A', 'B'], []⟩ : WaitState).rcv = true :=
  C10_buffer_vs_echo.1 ['A', Char.ofNat 0, 'B'] ['A', Char.ofNat 0, 'B'] [] []
    ⟨['A', Char.ofNat 0, 'B'], ['A', 'B'], []⟩ (by decide)
